import Mathlib

set_option maxHeartbeats 1000000

/-!
Shallow embedding of src/federated_learning/data/dataset.py.

A dataset is modelled by its label stream: a dataset of size n is a list
ls : List ℕ with ls.length = n, sample i carrying label ls.getD i 0.
Randomness drawn from the seeded global generators (random.shuffle,
random.random, random.choice, np.random.*) is passed explicitly: a shuffle
becomes a list together with a permutation hypothesis, a random.random coin
becomes a rational in [0,1), and a random.choice draw becomes a natural
number reduced modulo the length of the list being chosen from.
-/

namespace FLGuard

/-- Element picked by random.choice from a list, the draw k reduced modulo
the list length. For a nonempty list this is a genuine element. -/
def pick (l : List ℕ) (k : ℕ) : ℕ := l.getD (k % l.length) 0

/-- Grouping of `dataset.py` lines 311-313 (and 411-413): class_indices[c]
collects, in increasing order, the indices whose label is c. -/
def classIndices (labels : List ℕ) (c : ℕ) : List ℕ :=
  (List.range labels.length).filter (fun i => labels.getD i 0 = c)

/-- Exact cover: the participant index lists, taken together, contain every
source index in [0, n) exactly once, and are pairwise disjoint. -/
def ExactCover (n : ℕ) (cs : List (List ℕ)) : Prop :=
  cs.flatten.Perm (List.range n) ∧ List.Pairwise List.Disjoint cs

instance (l₁ l₂ : List ℕ) : Decidable (l₁.Disjoint l₂) :=
  decidable_of_iff (∀ a ∈ l₁, a ∉ l₂) (by simp [List.Disjoint])

instance (n : ℕ) (cs : List (List ℕ)) : Decidable (ExactCover n cs) := by
  unfold ExactCover; infer_instance

/-! ## IID partitioning, `split_dataset_iid` (dataset.py lines 374-393)

The shuffled index list `indices` is the parameter perm (hypotheses state it
is a permutation of range n).  samples_per_client = len(indices) // p, and
client i receives the slice indices[i*spc : i*spc+spc], the last client
receiving indices[(p-1)*spc : len(indices)]. -/

def split_dataset_iid (p : ℕ) (perm : List ℕ) : List (List ℕ) :=
  let spc := perm.length / p
  (List.range p).map (fun i =>
    let start := i * spc
    let stop := if i < p - 1 then start + spc else perm.length
    (perm.drop start).take (stop - start))

/-! ## Label-skew partitioning, `split_dataset_non_iid` (dataset.py 301-372)

The source computes clients_per_class = max(1, p // C) in the branch
p <= C and 1 otherwise (classes_per_client is computed but never used by
the rest of the function).  class_to_clients[c] is
list(range(start, end)) with start = (c * cpc) % p and
end = min(start + cpc, p), falling back to [c % p] if that range is empty.
Each sample of class c is then sent to a random preferred client with
probability Q and to a random non-preferred client otherwise (falling back
to a preferred one when every client is preferred). -/

def clientsPerClass (C p : ℕ) : ℕ := if p ≤ C then max 1 (p / C) else 1

def class_to_clients (C p : ℕ) (c : ℕ) : List ℕ :=
  let cpc := clientsPerClass C p
  let startClient := (c * cpc) % p
  let endClient := min (startClient + cpc) p
  let l := List.range' startClient (endClient - startClient)
  if l.isEmpty then [c % p] else l

def otherClients (C p : ℕ) (c : ℕ) : List ℕ :=
  (List.range p).filter (fun i => i ∉ class_to_clients C p c)

/-- Client receiving one sample of class c (dataset.py 346-356): coin models
the random.random() draw, kP and kO the random.choice draws over the
preferred and the non-preferred client lists. -/
def chooseClientFor (C p : ℕ) (Q : ℚ) (coin : ℚ) (kP kO : ℕ) (c : ℕ) : ℕ :=
  let preferred := class_to_clients C p c
  let others := otherClients C p c
  if coin < Q then pick preferred kP
  else if others.isEmpty then pick preferred kP
  else pick others kO

/-- Label-skew split: client j accumulates, class by class and in stream
order, the indices whose chosen client is j — the same multiset of
assignments produced by the appending loop of dataset.py 342-359. -/
def split_dataset_non_iid (labels : List ℕ) (C p : ℕ) (Q : ℚ)
    (shuf : ℕ → List ℕ) (coin : ℕ → ℚ) (kP kO : ℕ → ℕ) : List (List ℕ) :=
  (List.range p).map (fun j =>
    (List.range C).flatMap (fun c =>
      (shuf c).filter (fun idx =>
        chooseClientFor C p Q (coin idx) (kP idx) (kO idx) c = j)))

/-! ## Dirichlet partitioning, `split_dataset_dirichlet` (dataset.py 395-459)

proportions[c] (a Dirichlet draw over the p clients) is modelled as exact
rationals prop c j.  samples_per_client starts as
floor(proportions[c][j] * class_size) and the remainder
class_size - sum(samples_per_client) is then given out, one sample each, to
the clients np.argsort(proportions[c])[-remainder:] — a set of exactly
remainder distinct client ids, taken as the parameter S c.  The distribution
loop (client-major, with start_idxs bookkeeping) hands client j the slice
class_indices[c][start : start + count], where start is the total count of
the earlier clients. -/

def floorCount (prop : ℕ → ℕ → ℚ) (classSize : ℕ → ℕ) (c j : ℕ) : ℕ :=
  (⌊prop c j * (classSize c : ℚ)⌋).toNat

def adjCount (prop : ℕ → ℕ → ℚ) (classSize : ℕ → ℕ) (S : ℕ → Finset ℕ)
    (c j : ℕ) : ℕ :=
  floorCount prop classSize c j + if j ∈ S c then 1 else 0

def startIdx (cnt : ℕ → ℕ → ℕ) (c j : ℕ) : ℕ := ∑ i ∈ Finset.range j, cnt c i

def split_dataset_dirichlet (labels : List ℕ) (C p : ℕ) (shuf : ℕ → List ℕ)
    (cnt : ℕ → ℕ → ℕ) : List (List ℕ) :=
  (List.range p).map (fun j =>
    (List.range C).flatMap (fun c =>
      if startIdx cnt c j < (shuf c).length then
        ((shuf c).drop (startIdx cnt c j)).take (cnt c j)
      else []))

/-! ## Attack wrappers (dataset.py 10-227)

Each Python wrapper class becomes a structure holding the wrapped label
stream and the state its __init__ precomputes; __len__ and __getitem__
become len and get.  Wrappers other than Backdoor return the data part
unchanged, so their embedding carries labels only; Backdoor, which edits the
image, is modelled over 28x28 rational images (the trigger tensor has shape
(1, 28, 28)).  Python errors raised during construction are modelled by
Except-returning constructors. -/

inductive PyError
  | valueError (msg : String)
  | runtimeError
  | indexError
  | zeroDivisionError
deriving DecidableEq, Repr

/-- LabelFlippingDataset: label l becomes num_classes - l - 1 (line 27). -/
structure LabelFlippingDS where
  dataset : List ℕ
  num_classes : ℕ

def LabelFlippingDS.len (d : LabelFlippingDS) : ℕ := d.dataset.length

def LabelFlippingDS.get (d : LabelFlippingDS) (idx : ℕ) : ℕ :=
  d.num_classes - d.dataset.getD idx 0 - 1

/-- Backdoor trigger (create_trigger, lines 43-50): ones on the square with
row and column at least 24, zeros elsewhere. -/
def trigger (r c : Fin 28) : ℚ := if 24 ≤ r.val ∧ 24 ≤ c.val then 1 else 0

/-- torch.clamp(x, 0, 1). -/
def clamp01 (x : ℚ) : ℚ := min (max x 0) 1

structure BackdoorDS where
  data : ℕ → Fin 28 → Fin 28 → ℚ
  labels : List ℕ
  num_classes : ℕ
  target_label : ℕ

def BackdoorDS.len (d : BackdoorDS) : ℕ := d.labels.length

/-- BackdoorDataset.__getitem__ (lines 55-61): the original target is
ignored, the trigger is added and the result clamped into [0,1], and the
label returned is the constant target label. -/
def BackdoorDS.get (d : BackdoorDS) (idx : ℕ) :
    (Fin 28 → Fin 28 → ℚ) × ℕ :=
  (fun r c => clamp01 (d.data idx r c + trigger r c), d.target_label)

/-- AdaptiveAttackDataset: pass-through (lines 63-79). -/
structure AdaptiveDS where
  dataset : List ℕ

def AdaptiveDS.len (d : AdaptiveDS) : ℕ := d.dataset.length

def AdaptiveDS.get (d : AdaptiveDS) (idx : ℕ) : ℕ := d.dataset.getD idx 0

/-- MinMaxAttackDataset (lines 81-103): confusion_map[c] = (c+1) mod C. -/
structure MinMaxDS where
  dataset : List ℕ
  num_classes : ℕ
  confusion_map : List ℕ

def mkMinMax (labels : List ℕ) (C : ℕ) : MinMaxDS :=
  ⟨labels, C, (List.range C).map (fun i => (i + 1) % C)⟩

def MinMaxDS.len (d : MinMaxDS) : ℕ := d.dataset.length

def MinMaxDS.get (d : MinMaxDS) (idx : ℕ) : ℕ :=
  d.confusion_map.getD (d.dataset.getD idx 0) 0

/-- Circular distance min((j-i) % C, (i-j) % C) of dataset.py line 125, with
Python semantics: the % of a possibly negative integer by a positive one is
nonnegative. -/
def circDist (C i j : ℕ) : ℕ :=
  min ((((j : ℤ) - (i : ℤ)) % (C : ℤ)).toNat)
    ((((i : ℤ) - (j : ℤ)) % (C : ℤ)).toNat)

/-- Pre-normalization Min-Sum weight of corrupted class j for true class i
(dataset.py 118-126): 0.1 on the diagonal, otherwise 1/distance, with a 0.1
fallback at distance 0. -/
def minSumWeight (C i j : ℕ) : ℚ :=
  if i = j then 1 / 10
  else if 0 < circDist C i j then 1 / (circDist C i j : ℚ)
  else 1 / 10

def minSumRow (C i : ℕ) : List ℚ := (List.range C).map (minSumWeight C i)

/-- Row i of prob_map after the normalization of line 128. -/
def minSumProbRow (C i : ℕ) : List ℚ :=
  (minSumRow C i).map (fun w => w / (minSumRow C i).sum)

structure MinSumDS where
  dataset : List ℕ
  num_classes : ℕ
  prob_map : List (List ℚ)

/-- MinSumAttackDataset.__init__ (113-128) over an integer class count:
torch.zeros(C, C) raises for negative C; C = 0 builds an empty table; for
positive C the weight rows are built and normalized.  Nothing else in the
constructor can fail. -/
def minSumInit (labels : List ℕ) (C : ℤ) : Except PyError MinSumDS :=
  if C < 0 then .error .runtimeError
  else .ok ⟨labels, C.toNat, (List.range C.toNat).map (minSumProbRow C.toNat)⟩

def MinSumDS.len (d : MinSumDS) : ℕ := d.dataset.length

/-- Inverse-CDF draw modelling torch.multinomial(w, 1): the first index
whose cumulative weight exceeds the uniform draw u. -/
def sampleCat (w : List ℚ) (u : ℚ) : ℕ :=
  match w with
  | [] => 0
  | x :: rest => if u < x then 0 else sampleCat rest (u - x) + 1

/-- MinSumAttackDataset.__getitem__ (133-137), the fresh multinomial draw of
each access modelled by the uniform value u. -/
def MinSumDS.get (d : MinSumDS) (u : ℚ) (idx : ℕ) : ℕ :=
  sampleCat (d.prob_map.getD (d.dataset.getD idx 0) []) u

structure AlternatingDS where
  dataset : List ℕ
  num_classes : ℕ
  alternating_offset : List ℕ

/-- AlternatingAttackDataset.__init__ (146-150):
np.random.randint(0, C, size=n) raises unless 0 < C (also when n = 0); the
per-index draws are modelled by rand reduced mod C. -/
def alternatingInit (labels : List ℕ) (C : ℤ) (rand : ℕ → ℕ) :
    Except PyError AlternatingDS :=
  if C ≤ 0 then .error (.valueError "low >= high")
  else .ok ⟨labels, C.toNat,
    (List.range labels.length).map (fun i => rand i % C.toNat)⟩

def AlternatingDS.len (d : AlternatingDS) : ℕ := d.dataset.length

/-- AlternatingAttackDataset.__getitem__ (155-164): even indices get the
precomputed offset added mod C, odd indices keep the original label. -/
def AlternatingDS.get (d : AlternatingDS) (idx : ℕ) : ℕ :=
  if idx % 2 = 0 then
    (d.dataset.getD idx 0 + d.alternating_offset.getD idx 0) % d.num_classes
  else d.dataset.getD idx 0

/-- TargetedAttackDataset (166-187). -/
structure TargetedDS where
  dataset : List ℕ
  num_classes : ℕ
  target_class : ℕ
  target_output : ℕ

def TargetedDS.len (d : TargetedDS) : ℕ := d.dataset.length

def TargetedDS.get (d : TargetedDS) (idx : ℕ) : ℕ :=
  if d.dataset.getD idx 0 = d.target_class then d.target_output
  else d.dataset.getD idx 0

def writeRange (f : ℕ → ℕ) (a b v : ℕ) : ℕ → ℕ :=
  fun idx => if a ≤ idx ∧ idx < b then v else f idx

/-- quarter_map after the four slice writes of dataset.py 213-217: starting
from all zeros, for i = 0,1,2,3 the value i is written on
[i*q, (i+1)*q) with q = n // 4 (the last write covering [3*q, n)), later
writes overwriting earlier ones. -/
def quarterMap (n : ℕ) : ℕ → ℕ :=
  (List.range 4).foldl
    (fun f i => writeRange f (i * (n / 4))
      (if i < 3 then (i + 1) * (n / 4) else n) i)
    (fun _ => 0)

structure GradInvDS where
  dataset : List ℕ
  num_classes : ℕ
  quarter_map : List ℕ

/-- GradientInversionAttackDataset.__init__ (197-217): builds the quarter
map; no input can make it fail (negative C only matters inside the strategy
lambdas, which are not evaluated at construction, and n = 0 gives an empty
map). -/
def gradInvInit (labels : List ℕ) (C : ℤ) : Except PyError GradInvDS :=
  .ok ⟨labels, C.toNat,
    (List.range labels.length).map (quarterMap labels.length)⟩

def GradInvDS.len (d : GradInvDS) : ℕ := d.dataset.length

/-- Strategy table of dataset.py 205-210, indexed by quarter. -/
def gradInvStrategy (C : ℕ) : ℕ → ℕ → ℕ
  | 0, x => (x + 1) % C
  | 1, x => (x + C / 2) % C
  | 2, x => x
  | _, x => C - x - 1

/-- GradientInversionAttackDataset.__getitem__ (222-227). -/
def GradInvDS.get (d : GradInvDS) (idx : ℕ) : ℕ :=
  gradInvStrategy d.num_classes (d.quarter_map.getD idx 0)
    (d.dataset.getD idx 0)

/-! ## The split_dataset dispatcher (dataset.py 461-484) over an integer,
unvalidated participant count

NUM_CLIENTS is read from the configuration module and never checked.  In the
iid branch, samples_per_client = n // p raises ZeroDivisionError for p = 0,
while a negative p makes range(p) empty, so an empty list of shares is
returned normally.  In the label-skew branch the grouping loop raises
IndexError when some label reaches C; with classes present, p = 0 raises
ZeroDivisionError at (c * clients_per_class) % p, and a negative p raises
IndexError at the first append (client_datasets is empty); with no samples
and no failing step an empty list is returned.  In the dirichlet branch
np.repeat(alpha, p) raises ValueError for negative p, and p = 0 yields empty
proportion rows so an empty list of shares is returned normally.  An
unrecognized policy raises ValueError. -/

def split_dataset_iidZ (perm : List ℕ) (p : ℤ) :
    Except PyError (List (List ℕ)) :=
  if p = 0 then .error .zeroDivisionError
  else if p < 0 then .ok []
  else .ok (split_dataset_iid p.toNat perm)

def split_dataset_non_iidZ (labels : List ℕ) (C : ℕ) (p : ℤ) (Q : ℚ)
    (shuf : ℕ → List ℕ) (coin : ℕ → ℚ) (kP kO : ℕ → ℕ) :
    Except PyError (List (List ℕ)) :=
  if labels.any (fun l => C ≤ l) then .error .indexError
  else if 0 < p then
    .ok (split_dataset_non_iid labels C p.toNat Q shuf coin kP kO)
  else if p = 0 then (if C = 0 then .ok [] else .error .zeroDivisionError)
  else if labels.isEmpty then .ok [] else .error .indexError

def split_dataset_dirichletZ (labels : List ℕ) (C : ℕ) (p : ℤ)
    (shuf : ℕ → List ℕ) (cnt : ℕ → ℕ → ℕ) :
    Except PyError (List (List ℕ)) :=
  if labels.any (fun l => C ≤ l) then .error .indexError
  else if p < 0 then .error (.valueError "negative repeats")
  else .ok (split_dataset_dirichlet labels C p.toNat shuf cnt)

def split_dataset (labels : List ℕ) (C : ℕ) (policy : String) (p : ℤ)
    (Q : ℚ) (perm : List ℕ) (shufL shufD : ℕ → List ℕ) (coin : ℕ → ℚ)
    (kP kO : ℕ → ℕ) (cnt : ℕ → ℕ → ℕ) : Except PyError (List (List ℕ)) :=
  if policy = "iid" then split_dataset_iidZ perm p
  else if policy = "label_skew" then
    split_dataset_non_iidZ labels C p Q shufL coin kP kO
  else if policy = "dirichlet" then
    split_dataset_dirichletZ labels C p shufD cnt
  else .error (.valueError ("Unknown distribution type: " ++ policy))

/-! ## Root-set sizing (create_root_dataset, dataset.py 497-503) -/

/-- Python int() on an exact value: truncation toward zero. -/
def pyInt (q : ℚ) : ℤ := if 0 ≤ q then ⌊q⌋ else -⌊-q⌋

/-- Requested root-set size: the dynamic branch computes
int(len(full_dataset) * ROOT_DATASET_RATIO), the fixed branch returns the
configured absolute count. -/
def rootSize (total : ℕ) (dynamicSize : Bool) (frac : ℚ) (fixedSize : ℕ) :
    ℤ :=
  if dynamicSize then pyInt ((total : ℚ) * frac) else (fixedSize : ℤ)

/-- Modelled from the spec: rounding to the nearest integer (halves up),
the reading of the round(total_size * ratio) the spec claims for the
dynamic branch; compared against the implementation in C8. -/
def specRound (q : ℚ) : ℤ := ⌊q + 1 / 2⌋

/-! ## Theorems: shared lemmas, then the claim theorems C1-C10 -/

theorem pick_mem {l : List ℕ} (hl : l ≠ []) (k : ℕ) : pick l k ∈ l := by
  have hlen : 0 < l.length := List.length_pos.mpr hl
  have : k % l.length < l.length := Nat.mod_lt _ hlen
  simp only [pick, List.getD_eq_getElem?_getD, List.getElem?_eq_getElem this,
    Option.getD_some]
  exact List.getElem_mem this

theorem exactCover_of_flatten_perm {n : ℕ} {cs : List (List ℕ)}
    (h : cs.flatten.Perm (List.range n)) : ExactCover n cs := by
  refine ⟨h, ?_⟩
  have hnd : cs.flatten.Nodup := h.nodup_iff.mpr (List.nodup_range n)
  exact (List.nodup_flatten.mp hnd).2

theorem flatten_map_slices {α : Type} (l : List α) (spc : ℕ) :
    ∀ k : ℕ,
      ((List.range k).map (fun i => (l.drop (i * spc)).take spc)).flatten
        = l.take (k * spc) := by
  intro k
  induction k with
  | zero => simp
  | succ k ih =>
      rw [List.range_succ, List.map_append, List.flatten_append, ih]
      simp only [List.map_cons, List.map_nil, List.flatten_cons,
        List.flatten_nil, List.append_nil]
      rw [← List.take_add, Nat.succ_mul]

theorem split_dataset_iid_flatten (p : ℕ) (hp : 0 < p) (perm : List ℕ) :
    (split_dataset_iid p perm).flatten = perm := by
  unfold split_dataset_iid
  have hrange : List.range p = List.range (p - 1) ++ [p - 1] := by
    conv_lhs => rw [show p = p - 1 + 1 from (Nat.succ_pred_eq_of_pos hp).symm]
    exact List.range_succ _
  rw [hrange, List.map_append, List.flatten_append]
  have hfirst :
      ((List.range (p - 1)).map (fun i =>
        (perm.drop (i * (perm.length / p))).take
          ((if i < p - 1 then i * (perm.length / p) + perm.length / p
            else perm.length) - i * (perm.length / p)))).flatten
        = perm.take ((p - 1) * (perm.length / p)) := by
    rw [← flatten_map_slices perm (perm.length / p) (p - 1)]
    congr 1
    refine List.map_congr_left (fun i hi => ?_)
    have hi2 : i < p - 1 := List.mem_range.mp hi
    simp [hi2]
  rw [hfirst]
  have hlast : ¬ (p - 1 < p - 1) := lt_irrefl _
  simp only [List.map_cons, List.map_nil, List.flatten_cons, List.flatten_nil,
    List.append_nil, hlast, if_false]
  have hle : (p - 1) * (perm.length / p) ≤ perm.length := by
    calc (p - 1) * (perm.length / p) ≤ p * (perm.length / p) :=
          Nat.mul_le_mul_right _ (Nat.sub_le _ _)
      _ ≤ perm.length := by rw [Nat.mul_comm]; exact Nat.div_mul_le_self _ _
  have hdroplen : (perm.drop ((p - 1) * (perm.length / p))).length
      = perm.length - (p - 1) * (perm.length / p) := by simp
  rw [← hdroplen, List.take_length, List.take_append_drop]

theorem split_dataset_iid_cover (n p : ℕ) (hp : 0 < p) (perm : List ℕ)
    (hperm : perm.Perm (List.range n)) :
    ExactCover n (split_dataset_iid p perm) :=
  exactCover_of_flatten_perm (by rw [split_dataset_iid_flatten p hp perm]; exact hperm)

theorem class_to_clients_ne_nil (C p c : ℕ) : class_to_clients C p c ≠ [] := by
  unfold class_to_clients
  intro hnil
  by_cases h : (List.range' ((c * clientsPerClass C p) % p)
      (min ((c * clientsPerClass C p) % p + clientsPerClass C p) p
        - (c * clientsPerClass C p) % p)).isEmpty
  · rw [if_pos h] at hnil
    exact absurd hnil (by simp)
  · rw [if_neg h] at hnil
    exact h (by simp [hnil])

theorem class_to_clients_lt {C p : ℕ} (hp : 0 < p) {c j : ℕ}
    (hj : j ∈ class_to_clients C p c) : j < p := by
  unfold class_to_clients at hj
  set s := (c * clientsPerClass C p) % p with hs
  have hslt : s < p := Nat.mod_lt _ hp
  by_cases h : (List.range' s (min (s + clientsPerClass C p) p - s)).isEmpty
  · simp only [h, if_true] at hj
    have : j = c % p := by simpa using hj
    subst this; exact Nat.mod_lt _ hp
  · simp only [h, if_false] at hj
    have := List.mem_range'_1.mp hj
    have hub : j < s + (min (s + clientsPerClass C p) p - s) := this.2
    have hmin : min (s + clientsPerClass C p) p ≤ p := Nat.min_le_right _ _
    have : s + (min (s + clientsPerClass C p) p - s) ≤ p := by omega
    omega

theorem chooseClientFor_lt {C p : ℕ} (hp : 0 < p) (Q : ℚ) (coin : ℚ)
    (kP kO c : ℕ) : chooseClientFor C p Q coin kP kO c < p := by
  unfold chooseClientFor
  by_cases h1 : coin < Q
  · simp only [h1, if_true]
    exact class_to_clients_lt hp (pick_mem (class_to_clients_ne_nil C p c) kP)
  · simp only [h1, if_false]
    by_cases h2 : (otherClients C p c).isEmpty
    · simp only [h2, if_true]
      exact class_to_clients_lt hp (pick_mem (class_to_clients_ne_nil C p c) kP)
    · simp only [h2, if_false]
      have hne : otherClients C p c ≠ [] := fun hnil => by simp [hnil] at h2
      have hm := pick_mem hne kO
      rw [otherClients] at hm
      exact List.mem_range.mp (List.mem_filter.mp hm).1

theorem getD_mem_of_lt {l : List ℕ} {i : ℕ} (h : i < l.length) : l.getD i 0 ∈ l := by
  simp only [List.getD_eq_getElem?_getD, List.getElem?_eq_getElem h, Option.getD_some]
  exact List.getElem_mem h

theorem count_filter_ite (pr : ℕ → Bool) (l : List ℕ) (a : ℕ) :
    List.count a (l.filter pr) = if pr a then List.count a l else 0 := by
  by_cases h : pr a
  · rw [if_pos h, List.count_filter h]
  · rw [if_neg h]
    exact List.count_eq_zero.mpr (fun hmem => h (List.mem_filter.mp hmem).2)

theorem sum_map_range (m : ℕ) (f : ℕ → ℕ) :
    ((List.range m).map f).sum = ∑ j ∈ Finset.range m, f j := by
  induction m with
  | zero => simp
  | succ m ih =>
      rw [List.range_succ, List.map_append, List.sum_append, ih,
        Finset.sum_range_succ]
      simp

theorem sum_count_classIndices (labels : List ℕ) (C : ℕ)
    (hlab : ∀ l ∈ labels, l < C) (a : ℕ) :
    (∑ c ∈ Finset.range C, List.count a (classIndices labels c))
      = List.count a (List.range labels.length) := by
  have hterm : ∀ c, List.count a (classIndices labels c)
      = if labels.getD a 0 = c then List.count a (List.range labels.length)
        else 0 := by
    intro c
    rw [classIndices, count_filter_ite]
    simp only [decide_eq_true_eq]
  rw [Finset.sum_congr rfl (fun c _ => hterm c), Finset.sum_ite_eq]
  by_cases ha : a < labels.length
  · exact if_pos (Finset.mem_range.mpr (hlab _ (getD_mem_of_lt ha)))
  · have hz : List.count a (List.range labels.length) = 0 :=
      List.count_eq_zero.mpr (fun hmem => ha (List.mem_range.mp hmem))
    rw [hz]
    split <;> rfl

/-- Coverage skeleton: if client j gathers, class by class, a piece of the
shuffled class-c index list, and for every class the pieces jointly contain
each entry of that class list exactly as often as the list itself does, then
the resulting family covers the index domain exactly once. -/
theorem cover_of_pieces (labels : List ℕ) (C p : ℕ)
    (hlab : ∀ l ∈ labels, l < C)
    (shuf : ℕ → List ℕ)
    (hshuf : ∀ c, c < C → (shuf c).Perm (classIndices labels c))
    (piece : ℕ → ℕ → List ℕ)
    (hcount : ∀ a c, c < C →
      (∑ j ∈ Finset.range p, List.count a (piece j c)) = List.count a (shuf c)) :
    ExactCover labels.length
      ((List.range p).map (fun j =>
        (List.range C).flatMap (fun c => piece j c))) := by
  refine exactCover_of_flatten_perm (List.perm_iff_count.mpr (fun a => ?_))
  rw [List.count_flatten, List.map_map]
  have hinner : ∀ j,
      List.count a ((List.range C).flatMap (fun c => piece j c))
        = ∑ c ∈ Finset.range C, List.count a (piece j c) := by
    intro j
    rw [List.flatMap_def, List.count_flatten, List.map_map]
    exact sum_map_range C _
  have hmapeq : (List.range p).map
        (List.count a ∘ fun j => (List.range C).flatMap (fun c => piece j c))
      = (List.range p).map
        (fun j => ∑ c ∈ Finset.range C, List.count a (piece j c)) :=
    List.map_congr_left (fun j _ => hinner j)
  rw [hmapeq, sum_map_range, Finset.sum_comm]
  rw [Finset.sum_congr rfl
    (fun c hc => hcount a c (Finset.mem_range.mp hc))]
  rw [Finset.sum_congr rfl (fun c hc =>
    List.perm_iff_count.mp (hshuf c (Finset.mem_range.mp hc)) a)]
  exact sum_count_classIndices labels C hlab a

theorem split_dataset_non_iid_cover (labels : List ℕ) (C p : ℕ) (hp : 0 < p)
    (Q : ℚ) (shuf : ℕ → List ℕ) (coin : ℕ → ℚ) (kP kO : ℕ → ℕ)
    (hlab : ∀ l ∈ labels, l < C)
    (hshuf : ∀ c, c < C → (shuf c).Perm (classIndices labels c)) :
    ExactCover labels.length
      (split_dataset_non_iid labels C p Q shuf coin kP kO) := by
  rw [split_dataset_non_iid]
  refine cover_of_pieces labels C p hlab shuf hshuf _ (fun a c hc => ?_)
  have hterm : ∀ j,
      List.count a ((shuf c).filter (fun idx =>
        chooseClientFor C p Q (coin idx) (kP idx) (kO idx) c = j))
      = if chooseClientFor C p Q (coin a) (kP a) (kO a) c = j
        then List.count a (shuf c) else 0 := by
    intro j
    rw [count_filter_ite]
    simp only [decide_eq_true_eq]
  rw [Finset.sum_congr rfl (fun j _ => hterm j), Finset.sum_ite_eq]
  exact if_pos (Finset.mem_range.mpr (chooseClientFor_lt hp Q (coin a) (kP a) (kO a) c))

theorem flatten_slices (l : List ℕ) (cnt : ℕ → ℕ) :
    ∀ k, ((List.range k).map (fun j =>
        (l.drop (∑ i ∈ Finset.range j, cnt i)).take (cnt j))).flatten
      = l.take (∑ i ∈ Finset.range k, cnt i) := by
  intro k
  induction k with
  | zero => simp
  | succ k ih =>
      rw [List.range_succ, List.map_append, List.flatten_append, ih]
      simp only [List.map_cons, List.map_nil, List.flatten_cons,
        List.flatten_nil, List.append_nil]
      rw [Finset.sum_range_succ, List.take_add]

theorem sum_count_slices (l : List ℕ) (cnt : ℕ → ℕ) (p : ℕ)
    (hsum : (∑ i ∈ Finset.range p, cnt i) = l.length) (a : ℕ) :
    (∑ j ∈ Finset.range p,
        List.count a ((l.drop (∑ i ∈ Finset.range j, cnt i)).take (cnt j)))
      = List.count a l := by
  have h := congrArg (List.count a) (flatten_slices l cnt p)
  rw [hsum, List.take_length, List.count_flatten, List.map_map] at h
  rw [← h, ← sum_map_range]
  rfl

theorem split_dataset_dirichlet_cover (labels : List ℕ) (C p : ℕ)
    (shuf : ℕ → List ℕ) (cnt : ℕ → ℕ → ℕ)
    (hlab : ∀ l ∈ labels, l < C)
    (hshuf : ∀ c, c < C → (shuf c).Perm (classIndices labels c))
    (hcnt : ∀ c, c < C → (∑ j ∈ Finset.range p, cnt c j) = (shuf c).length) :
    ExactCover labels.length (split_dataset_dirichlet labels C p shuf cnt) := by
  rw [split_dataset_dirichlet]
  refine cover_of_pieces labels C p hlab shuf hshuf _ (fun a c hc => ?_)
  have hguard : ∀ j, (if startIdx cnt c j < (shuf c).length
        then ((shuf c).drop (startIdx cnt c j)).take (cnt c j) else [])
      = ((shuf c).drop (startIdx cnt c j)).take (cnt c j) := by
    intro j
    split
    · rfl
    · rename_i h
      rw [List.drop_eq_nil_of_le (le_of_not_lt h)]
      simp
  rw [Finset.sum_congr rfl (fun j _ => congrArg (List.count a) (hguard j))]
  simp only [startIdx]
  exact sum_count_slices (shuf c) (cnt c) p (hcnt c hc) a

/-- Sum of the adjusted per-client counts for one class: the floors consume
at most class_size (their rational sum is at most the proportion sum, 1,
times class_size), and the remainder set S c tops the total back up to
class_size exactly; this is the conservation step of dataset.py 431-439. -/
theorem adjCount_sum (prop : ℕ → ℕ → ℚ) (classSize : ℕ → ℕ)
    (S : ℕ → Finset ℕ) (p c : ℕ)
    (hprop0 : ∀ j, j < p → 0 ≤ prop c j)
    (hprop1 : (∑ j ∈ Finset.range p, prop c j) = 1)
    (hS : S c ⊆ Finset.range p)
    (hcard : (S c).card
      = classSize c - (∑ j ∈ Finset.range p, floorCount prop classSize c j)) :
    (∑ j ∈ Finset.range p, adjCount prop classSize S c j) = classSize c := by
  have hnn : ∀ j ∈ Finset.range p, (0:ℚ) ≤ prop c j * (classSize c : ℚ) :=
    fun j hj => mul_nonneg (hprop0 j (Finset.mem_range.mp hj)) (by positivity)
  have hfl : ∀ j ∈ Finset.range p,
      ((floorCount prop classSize c j : ℤ)) = ⌊prop c j * (classSize c : ℚ)⌋ :=
    fun j hj => Int.toNat_of_nonneg (Int.floor_nonneg.mpr (hnn j hj))
  have hfloor_le : (∑ j ∈ Finset.range p, floorCount prop classSize c j)
      ≤ classSize c := by
    have hq : ((∑ j ∈ Finset.range p, floorCount prop classSize c j : ℕ) : ℚ)
        ≤ (classSize c : ℚ) := by
      push_cast
      calc (∑ j ∈ Finset.range p, (floorCount prop classSize c j : ℚ))
          ≤ ∑ j ∈ Finset.range p, prop c j * (classSize c : ℚ) := by
            refine Finset.sum_le_sum (fun j hj => ?_)
            have hcast : (floorCount prop classSize c j : ℚ)
                = ((⌊prop c j * (classSize c : ℚ)⌋ : ℤ) : ℚ) := by
              exact_mod_cast hfl j hj
            rw [hcast]
            exact Int.floor_le _
        _ = (classSize c : ℚ) := by rw [← Finset.sum_mul, hprop1, one_mul]
    exact_mod_cast hq
  have hsplit : (∑ j ∈ Finset.range p, adjCount prop classSize S c j)
      = (∑ j ∈ Finset.range p, floorCount prop classSize c j)
        + (∑ j ∈ Finset.range p, if j ∈ S c then 1 else 0) := by
    unfold adjCount
    rw [Finset.sum_add_distrib]
  have hindic : (∑ j ∈ Finset.range p, if j ∈ S c then 1 else 0)
      = (S c).card := by
    rw [Finset.sum_ite_mem, Finset.inter_eq_right.mpr hS,
      Finset.card_eq_sum_ones]
  rw [hsplit, hindic, hcard]
  omega

/-- C2: the code contradicts the claim (and its own comments at dataset.py
119 and 124): evaluated at num_classes = 5, true class i = 0, the
pre-normalization weight of class 1 (circular distance 1) is 1 while the
weight of class 2 (circular distance 2) is 1/2 — the mass decreases with
circular distance instead of growing, though the true class does keep its
0.1 residual. -/
theorem C2_minsum_weight_failing_input :
    circDist 5 0 1 < circDist 5 0 2
    ∧ minSumWeight 5 0 1 = 1
    ∧ minSumWeight 5 0 2 = 1 / 2
    ∧ minSumWeight 5 0 0 = 1 / 10
    ∧ ¬(minSumWeight 5 0 1 ≤ minSumWeight 5 0 2) := by
  have hc1 : circDist 5 0 1 = 1 := by decide
  have hc2 : circDist 5 0 2 = 2 := by decide
  refine ⟨by decide, ?_, ?_, ?_, ?_⟩ <;>
    norm_num [minSumWeight, hc1, hc2]

/-- C3 counterexample: a balanced dataset of 2 classes with 6 samples each
(n = 12) split iid over p = 10 participants (identity shuffle) gives the
last participant 3 samples, while n/p = 1.2 — off by 1.8 > 1, refuting the
within-1 claim. -/
theorem C3_counterexample :
    ((split_dataset_iid 10 (List.range 12)).map List.length)
      = [1, 1, 1, 1, 1, 1, 1, 1, 1, 3]
    ∧ ¬(|(3 : ℚ) - 12 / 10| ≤ 1) := by
  refine ⟨by decide, by norm_num [abs_le]⟩

/-- C3 amended: the first p-1 iid shares have size exactly n / p (within 1
of n/p), and the last share has size n / p + n % p, absorbing the whole
remainder. -/
theorem C3_iid_share_sizes (n p : ℕ) (hp : 0 < p) (perm : List ℕ)
    (hlen : perm.length = n) :
    (∀ i, i < p - 1 →
      ((split_dataset_iid p perm).getD i []).length = n / p)
    ∧ ((split_dataset_iid p perm).getD (p - 1) []).length = n / p + n % p := by
  subst hlen
  have hget : ∀ i, i < p →
      (split_dataset_iid p perm).getD i []
        = (perm.drop (i * (perm.length / p))).take
            ((if i < p - 1 then i * (perm.length / p) + perm.length / p
              else perm.length) - i * (perm.length / p)) := by
    intro i hi
    rw [split_dataset_iid]
    rw [List.getD_eq_getElem?_getD, List.getElem?_map, List.getElem?_range hi]
    rfl
  have hmul : ∀ k, k ≤ p → k * (perm.length / p) ≤ perm.length := by
    intro k hk
    calc k * (perm.length / p) ≤ p * (perm.length / p) :=
          Nat.mul_le_mul_right _ hk
      _ ≤ perm.length := by rw [Nat.mul_comm]; exact Nat.div_mul_le_self _ _
  have hmul2 : (p - 1) * (perm.length / p) + (perm.length / p)
      = p * (perm.length / p) := by
    have hpp : p - 1 + 1 = p := Nat.succ_pred_eq_of_pos hp
    calc (p - 1) * (perm.length / p) + (perm.length / p)
        = (p - 1 + 1) * (perm.length / p) := by ring
      _ = p * (perm.length / p) := by rw [hpp]
  constructor
  · intro i hi
    rw [hget i (by omega), if_pos hi, List.length_take, List.length_drop,
      Nat.add_sub_cancel_left]
    refine Nat.min_eq_left (Nat.le_sub_of_add_le ?_)
    have h2 : (i + 1) * (perm.length / p) ≤ perm.length :=
      hmul (i + 1) (by omega)
    calc perm.length / p + i * (perm.length / p)
        = (i + 1) * (perm.length / p) := by ring
      _ ≤ perm.length := h2
  · rw [hget (p - 1) (by omega), if_neg (lt_irrefl _), List.length_take,
      List.length_drop, Nat.min_self]
    have hW_le : (p - 1) * (perm.length / p) ≤ perm.length :=
      hmul _ (Nat.sub_le _ _)
    rw [Nat.sub_eq_iff_eq_add hW_le]
    calc perm.length
        = p * (perm.length / p) + perm.length % p :=
          (Nat.div_add_mod _ _).symm
      _ = (p - 1) * (perm.length / p) + (perm.length / p)
            + perm.length % p := by rw [hmul2]
      _ = perm.length / p + perm.length % p
            + (p - 1) * (perm.length / p) := by ring

/-- C3 witness: n = 5, p = 2: the first share has 5 / 2 = 2 elements and
the last share has 2 + 1 = 3. -/
theorem C3_iid_share_sizes_witness :
    (∀ i, i < 2 - 1 →
      ((split_dataset_iid 2 [4, 3, 2, 1, 0]).getD i []).length = 5 / 2)
    ∧ ((split_dataset_iid 2 [4, 3, 2, 1, 0]).getD (2 - 1) []).length
        = 5 / 2 + 5 % 2 :=
  C3_iid_share_sizes 5 2 (by decide) [4, 3, 2, 1, 0] (by decide)

/-- C6 counterexample: Min-Sum construction with num_classes = 0 over a
one-sample source succeeds (torch.zeros(0,0) is legal and the loops are
empty), and Gradient-Inversion construction over a length-0 source succeeds
— both contradict the claim that construction fails whenever
num_classes <= 0, or on length 0 for per-index-state strategies. -/
theorem C6_counterexample :
    (minSumInit [0] 0).isOk = true ∧ (gradInvInit [] 5).isOk = true := by
  constructor <;> rfl

/-- C6 amended: among the wrappers, only Alternating fails at construction
for num_classes <= 0, and it fails exactly then (np.random.randint needs a
nonempty range, whatever the source length, and succeeds for any positive
num_classes, also over a length-0 source); Min-Sum fails exactly for
num_classes < 0 (torch.zeros with a negative shape), num_classes = 0
succeeding with an empty table; Gradient-Inversion construction never
fails, in particular not on a length-0 source. -/
theorem C6_construction_validation (labels : List ℕ) (Cz : ℤ)
    (rand : ℕ → ℕ) :
    (Cz ≤ 0 → (alternatingInit labels Cz rand).isOk = false)
    ∧ (0 < Cz → (alternatingInit labels Cz rand).isOk = true)
    ∧ (Cz < 0 → (minSumInit labels Cz).isOk = false)
    ∧ (0 ≤ Cz → (minSumInit labels Cz).isOk = true)
    ∧ (gradInvInit labels Cz).isOk = true := by
  refine ⟨fun h => ?_, fun h => ?_, fun h => ?_, fun h => ?_, rfl⟩
  · rw [alternatingInit, if_pos h]; rfl
  · rw [alternatingInit, if_neg (not_le.mpr h)]; rfl
  · rw [minSumInit, if_pos h]; rfl
  · rw [minSumInit, if_neg (not_lt.mpr h)]; rfl

/-- C6 witness: concrete instances of the five conjuncts; the second shows
Alternating succeeding with 2 classes over a length-0 source. -/
theorem C6_construction_validation_witness :
    (alternatingInit [] 0 (fun _ => 0)).isOk = false
    ∧ (alternatingInit [] 2 (fun _ => 0)).isOk = true
    ∧ (minSumInit [] (-1)).isOk = false
    ∧ (minSumInit [] 0).isOk = true
    ∧ (gradInvInit [] 0).isOk = true :=
  ⟨(C6_construction_validation [] 0 (fun _ => 0)).1 (by decide),
    (C6_construction_validation [] 2 (fun _ => 0)).2.1 (by decide),
    (C6_construction_validation [] (-1) (fun _ => 0)).2.2.1 (by decide),
    (C6_construction_validation [] 0 (fun _ => 0)).2.2.2.1 (by decide),
    (C6_construction_validation [] 0 (fun _ => 0)).2.2.2.2⟩

/-- C7 counterexample: split_dataset with the recognized policy iid and
participant count -1 returns normally (an empty list of shares: range(-1)
is empty), instead of failing with a configuration error as the claim
requires for any count <= 0. -/
theorem C7_counterexample :
    split_dataset [0, 1, 0] 2 "iid" (-1) 0 [0, 1, 2] (fun _ => [])
      (fun _ => []) (fun _ => 0) (fun _ => 0) (fun _ => 0) (fun _ _ => 0)
      = .ok [] := rfl

/-- C7 amended: the dispatcher fails with ValueError exactly on an
unrecognized policy name; the participant count is never validated, and
with a recognized policy, in-range labels and a positive count the call
returns normally. -/
theorem C7_policy_validation (labels : List ℕ) (C : ℕ) (policy : String)
    (p : ℤ) (Q : ℚ) (perm : List ℕ) (shufL shufD : ℕ → List ℕ)
    (coin : ℕ → ℚ) (kP kO : ℕ → ℕ) (cnt : ℕ → ℕ → ℕ)
    (hlab : ∀ l ∈ labels, l < C) (hp : 0 < p) :
    (policy ≠ "iid" → policy ≠ "label_skew" → policy ≠ "dirichlet" →
      split_dataset labels C policy p Q perm shufL shufD coin kP kO cnt
        = .error (.valueError ("Unknown distribution type: " ++ policy)))
    ∧ (policy = "iid" ∨ policy = "label_skew" ∨ policy = "dirichlet" →
      (split_dataset labels C policy p Q perm shufL shufD coin kP kO
        cnt).isOk = true) := by
  have hany : labels.any (fun l => C ≤ l) = false := by
    rw [List.any_eq_false]
    intro l hl
    simpa using not_le.mpr (hlab l hl)
  constructor
  · intro h1 h2 h3
    rw [split_dataset, if_neg h1, if_neg h2, if_neg h3]
  · rintro (h | h | h) <;> subst h <;> rw [split_dataset]
    · rw [if_pos rfl, split_dataset_iidZ,
        if_neg (by omega : ¬ p = 0), if_neg (by omega : ¬ p < 0)]
      rfl
    · rw [if_neg (by decide), if_pos rfl, split_dataset_non_iidZ, hany]
      rw [if_neg (by simp), if_pos hp]
      rfl
    · rw [if_neg (by decide), if_neg (by decide), if_pos rfl,
        split_dataset_dirichletZ, hany]
      rw [if_neg (by simp), if_neg (not_lt.mpr (by omega : (0:ℤ) ≤ p))]
      rfl

/-- C7 witness: an unknown policy errors, and dirichlet with one
participant returns normally. -/
theorem C7_policy_validation_witness :
    (split_dataset [0] 1 "foo" 1 0 [0] (fun _ => []) (fun _ => [])
        (fun _ => 0) (fun _ => 0) (fun _ => 0) (fun _ _ => 0)
      = .error (.valueError "Unknown distribution type: foo"))
    ∧ (split_dataset [0] 1 "dirichlet" 1 0 [0] (fun _ => []) (fun _ => [])
        (fun _ => 0) (fun _ => 0) (fun _ => 0) (fun _ _ => 0)).isOk
      = true :=
  ⟨(C7_policy_validation [0] 1 "foo" 1 0 [0] (fun _ => []) (fun _ => [])
      (fun _ => 0) (fun _ => 0) (fun _ => 0) (fun _ _ => 0) (by decide)
      (by decide)).1 (by decide) (by decide) (by decide),
    (C7_policy_validation [0] 1 "dirichlet" 1 0 [0] (fun _ => [])
      (fun _ => []) (fun _ => 0) (fun _ => 0) (fun _ => 0) (fun _ _ => 0)
      (by decide) (by decide)).2 (Or.inr (Or.inr rfl))⟩

/-- C8 counterexample: total_size = 3, ratio = 1/2: the code computes
int(3 * 0.5) = 1 while round(1.5) = 2 (the spec's rounding), so the
dynamic size is not round(total_size * ratio). -/
theorem C8_counterexample :
    rootSize 3 true (1 / 2) 0 = 1
    ∧ specRound ((3 : ℚ) * (1 / 2)) = 2
    ∧ rootSize 3 true (1 / 2) 0 ≠ specRound ((3 : ℚ) * (1 / 2)) := by
  refine ⟨?_, ?_, ?_⟩ <;> norm_num [rootSize, pyInt, specRound]

/-- C8 amended: the dynamic branch computes int(total_size * ratio), a
truncation toward zero, which for a nonnegative ratio equals the floor of
total_size * ratio — not rounding to the nearest integer. -/
theorem C8_root_size_floor (total : ℕ) (frac : ℚ) (hfrac : 0 ≤ frac)
    (fixedSize : ℕ) :
    rootSize total true frac fixedSize = ⌊(total : ℚ) * frac⌋ := by
  rw [rootSize, if_pos rfl, pyInt,
    if_pos (mul_nonneg (by positivity) hfrac)]

/-- C8 witness: 10 samples at ratio 3/10 give floor(3) = 3. -/
theorem C8_root_size_floor_witness :
    rootSize 10 true (3 / 10) 0 = ⌊(10 : ℚ) * (3 / 10)⌋ :=
  C8_root_size_floor 10 (3 / 10) (by norm_num) 0

/-- C9: for the 10-sample dataset with labels [0,1,0,1,0,1,0,1,0,1],
num_classes = 2 and a Backdoor wrapper with target_label = 0, get returns
label 0 at every one of the 10 indices, and the returned image is exactly
the input image plus the trigger, clamped elementwise into [0,1]. -/
theorem C9_backdoor_scenario (data : ℕ → Fin 28 → Fin 28 → ℚ) (idx : ℕ)
    (hidx : idx < 10) :
    ((BackdoorDS.mk data [0, 1, 0, 1, 0, 1, 0, 1, 0, 1] 2 0).get idx).2 = 0
    ∧ (∀ r c,
        ((BackdoorDS.mk data [0, 1, 0, 1, 0, 1, 0, 1, 0, 1] 2 0).get idx).1 r c
          = clamp01 (data idx r c + trigger r c))
    ∧ (∀ r c,
        0 ≤ ((BackdoorDS.mk data [0, 1, 0, 1, 0, 1, 0, 1, 0, 1] 2 0).get
            idx).1 r c
        ∧ ((BackdoorDS.mk data [0, 1, 0, 1, 0, 1, 0, 1, 0, 1] 2 0).get
            idx).1 r c ≤ 1) := by
  refine ⟨rfl, fun r c => rfl, fun r c => ⟨?_, ?_⟩⟩
  · exact le_min (le_max_right _ _) (by norm_num)
  · exact min_le_right _ _

/-- C9 witness at index 3 with the all-zero image stream. -/
theorem C9_backdoor_scenario_witness :
    ((BackdoorDS.mk (fun _ _ _ => 0) [0, 1, 0, 1, 0, 1, 0, 1, 0, 1] 2 0).get
        3).2 = 0
    ∧ (∀ r c,
        ((BackdoorDS.mk (fun _ _ _ => 0) [0, 1, 0, 1, 0, 1, 0, 1, 0, 1] 2
            0).get 3).1 r c
          = clamp01 ((fun (_ : ℕ) (_ : Fin 28) (_ : Fin 28) => (0 : ℚ)) 3 r c
              + trigger r c))
    ∧ (∀ r c,
        0 ≤ ((BackdoorDS.mk (fun _ _ _ => 0) [0, 1, 0, 1, 0, 1, 0, 1, 0, 1]
            2 0).get 3).1 r c
        ∧ ((BackdoorDS.mk (fun _ _ _ => 0) [0, 1, 0, 1, 0, 1, 0, 1, 0, 1] 2
            0).get 3).1 r c ≤ 1) :=
  C9_backdoor_scenario (fun _ _ _ => 0) 3 (by decide)

/-- C10: over a source of length n with 0 < n < 4 the quarter size n // 4
is 0, the three empty slice writes leave nothing, and the final write puts
quarter 3 on all of [0, n); hence get returns the inversion rule
num_classes - label - 1 at every valid index. -/
theorem C10_gradinv_small_source (labels : List ℕ) (Cz : ℤ) (idx : ℕ)
    (d : GradInvDS) (hn0 : 0 < labels.length) (hn4 : labels.length < 4)
    (hidx : idx < labels.length) (hinit : gradInvInit labels Cz = .ok d) :
    d.get idx = Cz.toNat - labels.getD idx 0 - 1 := by
  have hd : d = ⟨labels, Cz.toNat,
      (List.range labels.length).map (quarterMap labels.length)⟩ := by
    have := hinit
    rw [gradInvInit] at this
    exact (Except.ok.injEq _ _).mp this.symm
  subst hd
  have hq : labels.length / 4 = 0 := Nat.div_eq_of_lt hn4
  have hqm : ((List.range labels.length).map
      (quarterMap labels.length)).getD idx 0 = quarterMap labels.length idx := by
    rw [List.getD_eq_getElem?_getD, List.getElem?_map,
      List.getElem?_range hidx]
    rfl
  have hmap : quarterMap labels.length idx = 3 := by
    have hr4 : List.range 4 = [0, 1, 2, 3] := rfl
    rw [quarterMap, hr4]
    simp only [List.foldl_cons, List.foldl_nil, writeRange, hq]
    norm_num
    exact hidx
  rw [GradInvDS.get, hqm, hmap]
  rfl

/-- C10 witness: labels [1, 0], 3 classes, index 0: the label 1 becomes
3 - 1 - 1 = 1 through the quarter-3 inversion rule. -/
theorem C10_gradinv_small_source_witness :
    0 < ([1, 0] : List ℕ).length
    ∧ (GradInvDS.mk [1, 0] 3 [3, 3]).get 0 = 3 - ([1, 0] : List ℕ).getD 0 0 - 1 :=
  ⟨by decide,
    C10_gradinv_small_source [1, 0] 3 0 (GradInvDS.mk [1, 0] 3 [3, 3])
      (by decide) (by decide) (by decide) rfl⟩

theorem mem_split_non_iid {labels : List ℕ} {C p : ℕ} {Q : ℚ}
    {shuf : ℕ → List ℕ} {coin : ℕ → ℚ} {kP kO : ℕ → ℕ} {j idx : ℕ}
    (h : idx ∈ (split_dataset_non_iid labels C p Q shuf coin kP kO).getD j []) :
    ∃ c, c < C ∧ idx ∈ shuf c
      ∧ chooseClientFor C p Q (coin idx) (kP idx) (kO idx) c = j := by
  by_cases hj : j < p
  · have hg : (split_dataset_non_iid labels C p Q shuf coin kP kO).getD j []
        = (List.range C).flatMap (fun c => (shuf c).filter (fun i2 =>
            chooseClientFor C p Q (coin i2) (kP i2) (kO i2) c = j)) := by
      rw [split_dataset_non_iid, List.getD_eq_getElem?_getD,
        List.getElem?_map, List.getElem?_range hj]
      rfl
    rw [hg] at h
    obtain ⟨c, hc, hmem⟩ := List.mem_flatMap.mp h
    obtain ⟨hin, hch⟩ := List.mem_filter.mp hmem
    exact ⟨c, List.mem_range.mp hc, hin, by simpa using hch⟩
  · rw [split_dataset_non_iid, List.getD_eq_default] at h
    · exact absurd h (List.not_mem_nil idx)
    · simpa using Nat.le_of_not_lt hj

theorem label_of_mem_shuf {labels : List ℕ} {C : ℕ} {shuf : ℕ → List ℕ}
    (hshuf : ∀ c, c < C → (shuf c).Perm (classIndices labels c))
    {c idx : ℕ} (hc : c < C) (hm : idx ∈ shuf c) : labels.getD idx 0 = c := by
  have h1 : idx ∈ classIndices labels c := (hshuf c hc).mem_iff.mp hm
  have h2 := (List.mem_filter.mp h1).2
  simpa using h2

theorem chooseClientFor_mem_preferred (C p : ℕ) {Q coin : ℚ} (kP kO c : ℕ)
    (h : coin < Q) :
    chooseClientFor C p Q coin kP kO c ∈ class_to_clients C p c := by
  unfold chooseClientFor
  simp only [h, if_true]
  exact pick_mem (class_to_clients_ne_nil C p c) kP

theorem chooseClientFor_q0_mem_others (C p : ℕ) {coin : ℚ} (kP kO c : ℕ)
    (h0 : 0 ≤ coin) (hne : otherClients C p c ≠ []) :
    chooseClientFor C p 0 coin kP kO c ∈ otherClients C p c := by
  unfold chooseClientFor
  have h1 : ¬ (coin < 0) := not_lt.mpr h0
  simp only [h1, if_false]
  by_cases h2 : (otherClients C p c).isEmpty
  · exact absurd (List.isEmpty_iff.mp h2) hne
  · simp only [h2, if_false]
    exact pick_mem hne kO

theorem mem_otherClients_not_preferred {C p c j : ℕ}
    (h : j ∈ otherClients C p c) : j ∉ class_to_clients C p c := by
  have := (List.mem_filter.mp h).2
  simpa using this

/-- C4: under the label-skew policy with Q = 1 (every random.random() draw
lies in [0,1), hence is below Q) every sample of class c lands on a
participant preferred for c, and with Q = 0 (no draw is below Q) a sample of
class c never lands on a preferred participant whenever a non-preferred
participant exists. -/
theorem C4_label_skew_extremes (labels : List ℕ) (C p : ℕ)
    (shuf : ℕ → List ℕ) (coin : ℕ → ℚ) (kP kO : ℕ → ℕ)
    (hshuf : ∀ c, c < C → (shuf c).Perm (classIndices labels c))
    (hcoin : ∀ i, 0 ≤ coin i ∧ coin i < 1) :
    (∀ j idx,
      idx ∈ (split_dataset_non_iid labels C p 1 shuf coin kP kO).getD j [] →
      j ∈ class_to_clients C p (labels.getD idx 0))
    ∧ (∀ j idx,
      idx ∈ (split_dataset_non_iid labels C p 0 shuf coin kP kO).getD j [] →
      otherClients C p (labels.getD idx 0) ≠ [] →
      j ∉ class_to_clients C p (labels.getD idx 0)) := by
  constructor
  · intro j idx h
    obtain ⟨c, hc, hm, hch⟩ := mem_split_non_iid h
    rw [label_of_mem_shuf hshuf hc hm, ← hch]
    exact chooseClientFor_mem_preferred C p (kP idx) (kO idx) c (hcoin idx).2
  · intro j idx h hne
    obtain ⟨c, hc, hm, hch⟩ := mem_split_non_iid h
    rw [label_of_mem_shuf hshuf hc hm] at hne ⊢
    rw [← hch]
    exact mem_otherClients_not_preferred
      (chooseClientFor_q0_mem_others C p (kP idx) (kO idx) c (hcoin idx).1 hne)

/-- C4 witness: two classes, two participants, class shuffles as grouped,
all coins 0. -/
theorem C4_label_skew_extremes_witness :
    (∀ j idx,
      idx ∈ (split_dataset_non_iid [0, 1] 2 2 1
        (fun c => classIndices [0, 1] c) (fun _ => 0) (fun _ => 0)
        (fun _ => 0)).getD j [] →
      j ∈ class_to_clients 2 2 (([0, 1] : List ℕ).getD idx 0))
    ∧ (∀ j idx,
      idx ∈ (split_dataset_non_iid [0, 1] 2 2 0
        (fun c => classIndices [0, 1] c) (fun _ => 0) (fun _ => 0)
        (fun _ => 0)).getD j [] →
      otherClients 2 2 (([0, 1] : List ℕ).getD idx 0) ≠ [] →
      j ∉ class_to_clients 2 2 (([0, 1] : List ℕ).getD idx 0)) :=
  C4_label_skew_extremes [0, 1] 2 2 (fun c => classIndices [0, 1] c)
    (fun _ => 0) (fun _ => 0) (fun _ => 0) (fun c _ => List.Perm.refl _)
    (fun i => ⟨le_refl 0, by norm_num⟩)

/-- C5: with every random draw passed explicitly (the state a fixed seed
determines), two constructions of the same wrapper over the same source
agree on the transformed label at every index, and every wrapper variant
reports the wrapped source's length. -/
theorem C5_attack_determinism_and_length (labels : List ℕ)
    (C tLabel tClass tOut : ℕ) (Cz : ℤ) (rand : ℕ → ℕ) (u : ℚ)
    (data : ℕ → Fin 28 → Fin 28 → ℚ) :
    (∀ d1 d2 : AlternatingDS, alternatingInit labels Cz rand = .ok d1 →
      alternatingInit labels Cz rand = .ok d2 →
      (∀ idx, d1.get idx = d2.get idx) ∧ d1.len = labels.length)
    ∧ (∀ d1 d2 : MinSumDS, minSumInit labels Cz = .ok d1 →
      minSumInit labels Cz = .ok d2 →
      (∀ idx, d1.get u idx = d2.get u idx) ∧ d1.len = labels.length)
    ∧ (∀ d : GradInvDS, gradInvInit labels Cz = .ok d →
      d.len = labels.length)
    ∧ (LabelFlippingDS.mk labels C).len = labels.length
    ∧ (BackdoorDS.mk data labels C tLabel).len = labels.length
    ∧ (AdaptiveDS.mk labels).len = labels.length
    ∧ (mkMinMax labels C).len = labels.length
    ∧ (TargetedDS.mk labels C tClass tOut).len = labels.length := by
  refine ⟨?_, ?_, ?_, rfl, rfl, rfl, rfl, rfl⟩
  · intro d1 d2 h1 h2
    obtain rfl : d1 = d2 := (Except.ok.injEq _ _).mp (h1.symm.trans h2)
    refine ⟨fun idx => rfl, ?_⟩
    rw [alternatingInit] at h1
    by_cases hC : Cz ≤ 0
    · rw [if_pos hC] at h1
      exact absurd h1 (by simp)
    · rw [if_neg hC] at h1
      obtain rfl := (Except.ok.injEq _ _).mp h1
      rfl
  · intro d1 d2 h1 h2
    obtain rfl : d1 = d2 := (Except.ok.injEq _ _).mp (h1.symm.trans h2)
    refine ⟨fun idx => rfl, ?_⟩
    rw [minSumInit] at h1
    by_cases hC : Cz < 0
    · rw [if_pos hC] at h1
      exact absurd h1 (by simp)
    · rw [if_neg hC] at h1
      obtain rfl := (Except.ok.injEq _ _).mp h1
      rfl
  · intro d h1
    rw [gradInvInit] at h1
    obtain rfl := (Except.ok.injEq _ _).mp h1
    rfl

/-- C5 witness: the Alternating wrapper over [0, 1] with 2 classes and the
all-zero draw stream, both constructions evaluated. -/
theorem C5_attack_determinism_and_length_witness :
    (∀ idx, (AlternatingDS.mk [0, 1] 2 [0, 0]).get idx
      = (AlternatingDS.mk [0, 1] 2 [0, 0]).get idx)
    ∧ (AlternatingDS.mk [0, 1] 2 [0, 0]).len = ([0, 1] : List ℕ).length :=
  (C5_attack_determinism_and_length [0, 1] 2 0 1 2 2 (fun _ => 0) 0
    (fun _ _ _ => 0)).1 (AlternatingDS.mk [0, 1] 2 [0, 0])
    (AlternatingDS.mk [0, 1] 2 [0, 0]) rfl rfl

/-- C1: for every dataset whose labels lie in [0, C), every positive
participant count, and each of the three policies — iid over any shuffle of
the index domain; label-skew over any within-class shuffles, coins and
choice draws; dirichlet over any within-class shuffles, nonnegative
proportion rows summing to one, and any remainder set of the right size —
the participant index lists contain every source index in [0, n) exactly
once and are pairwise disjoint. -/
theorem C1_partition_exact_cover (labels : List ℕ) (C p : ℕ) (hp : 0 < p)
    (hlab : ∀ l ∈ labels, l < C)
    (perm : List ℕ) (hperm : perm.Perm (List.range labels.length))
    (Q : ℚ) (shuf : ℕ → List ℕ)
    (hshuf : ∀ c, c < C → (shuf c).Perm (classIndices labels c))
    (coin : ℕ → ℚ) (kP kO : ℕ → ℕ)
    (shufD : ℕ → List ℕ)
    (hshufD : ∀ c, c < C → (shufD c).Perm (classIndices labels c))
    (prop : ℕ → ℕ → ℚ) (S : ℕ → Finset ℕ)
    (hprop0 : ∀ c, c < C → ∀ j, j < p → 0 ≤ prop c j)
    (hprop1 : ∀ c, c < C → (∑ j ∈ Finset.range p, prop c j) = 1)
    (hS : ∀ c, c < C → S c ⊆ Finset.range p)
    (hScard : ∀ c, c < C → (S c).card
      = (shufD c).length - (∑ j ∈ Finset.range p,
          floorCount prop (fun c2 => (shufD c2).length) c j)) :
    ExactCover labels.length (split_dataset_iid p perm)
    ∧ ExactCover labels.length
        (split_dataset_non_iid labels C p Q shuf coin kP kO)
    ∧ ExactCover labels.length
        (split_dataset_dirichlet labels C p shufD
          (adjCount prop (fun c2 => (shufD c2).length) S)) := by
  refine ⟨split_dataset_iid_cover labels.length p hp perm hperm,
    split_dataset_non_iid_cover labels C p hp Q shuf coin kP kO hlab hshuf,
    split_dataset_dirichlet_cover labels C p shufD _ hlab hshufD
      (fun c hc => ?_)⟩
  exact adjCount_sum prop (fun c2 => (shufD c2).length) S p c
    (hprop0 c hc) (hprop1 c hc) (hS c hc) (hScard c hc)

/-- C1 witness: labels [0,1,0,1], two classes, two participants, a concrete
shuffle, uniform proportions 1/2 and empty remainder sets. -/
theorem C1_partition_exact_cover_witness :
    ExactCover 4 (split_dataset_iid 2 [2, 0, 3, 1])
    ∧ ExactCover 4 (split_dataset_non_iid [0, 1, 0, 1] 2 2 (1 / 2)
        (fun c => classIndices [0, 1, 0, 1] c) (fun _ => 0) (fun _ => 0)
        (fun _ => 0))
    ∧ ExactCover 4 (split_dataset_dirichlet [0, 1, 0, 1] 2 2
        (fun c => classIndices [0, 1, 0, 1] c)
        (adjCount (fun _ _ => 1 / 2)
          (fun c2 => (classIndices [0, 1, 0, 1] c2).length)
          (fun _ => ∅))) :=
  C1_partition_exact_cover [0, 1, 0, 1] 2 2 (by decide) (by decide)
    [2, 0, 3, 1] (by decide) (1 / 2)
    (fun c => classIndices [0, 1, 0, 1] c) (fun c _ => List.Perm.refl _)
    (fun _ => 0) (fun _ => 0) (fun _ => 0)
    (fun c => classIndices [0, 1, 0, 1] c) (fun c _ => List.Perm.refl _)
    (fun _ _ => 1 / 2) (fun _ => ∅)
    (fun c _ j _ => by norm_num)
    (fun c hc => by
      norm_num [Finset.sum_range_succ])
    (fun c _ => Finset.empty_subset _)
    (fun c hc => by
      have hl0 : (classIndices [0, 1, 0, 1] 0).length = 2 := by decide
      have hl1 : (classIndices [0, 1, 0, 1] 1).length = 2 := by decide
      interval_cases c <;>
        simp only [floorCount, hl0, hl1, Finset.sum_range_succ,
          Finset.sum_range_zero, Finset.card_empty] <;>
        norm_num)

end FLGuard

